import Mathlib

/-!
Verification development for `rank_run.c`, a small MPI tool that runs one
shell command or script per rank.  The definitions below are a shallow
embedding of the C source: strings are `List Char`, the coordinator's
`commands[MAX_RANKS][MAX_LINE]` array is a function `Nat → List Char`
(every row zero-initialised, i.e. the empty string), the roster file is the
list of chunks successive `fgets` calls deliver, and wait statuses are
modelled as `Int` values with glibc's `WIFEXITED`/`WEXITSTATUS` decoding.
-/

namespace RankRun

/-- The C constant `MAX_LINE` (5000). -/
def MAX_LINE : Nat := 5000

/-- The C constant `MAX_RANKS` (5000). -/
def MAX_RANKS : Nat := 5000

/-- Whitespace test used by `trim` in the source: space, tab, LF, CR. -/
def isWs (c : Char) : Bool := c == ' ' || c == '\t' || c == '\n' || c == '\r'

/-- Embedding of `trim` (rank_run.c lines 26-32): the first loop plus the
`memmove` drop the maximal leading whitespace run; the backwards zeroing
loop drops the maximal trailing whitespace run. -/
def trim (s : List Char) : List Char :=
  let s1 := s.dropWhile isWs
  ((s1.reverse.dropWhile isWs)).reverse

/-- The qualifying test of the parse loop (line 85):
`commands[num_commands][0] != '\0' && commands[num_commands][0] != '#'`. -/
def qualifies : List Char → Bool
  | [] => false
  | c :: _ => c != '#'

/-- Result of the coordinator's parse loop: the final contents of the
`commands` rows, the final `num_commands`, the row indices `fgets` was
invoked with, and the row indices `fgets` actually wrote into. -/
structure ParseResult where
  cmds : Nat → List Char
  num : Nat
  invoked : List Nat
  wrote : List Nat

/-- Embedding of the parse loop (lines 83-87):
`while (fgets(commands[num_commands], MAX_LINE, fp) && num_commands < MAX_RANKS)`.
`fgets` is always evaluated first: on remaining input it writes the next
chunk into row `num_commands` (even when `num_commands = MAX_RANKS`, which
in C is an out-of-bounds write); only then is `num_commands < MAX_RANKS`
checked.  The body trims the row in place and increments `num_commands`
for qualifying lines.  At end of input `fgets` returns NULL and leaves the
row untouched, so a previously stored non-qualifying trimmed line stays in
row `num_commands`. -/
def parseGo : List (List Char) → (Nat → List Char) → Nat → ParseResult
  | [], cmds, n => ⟨cmds, n, [n], []⟩
  | l :: ls, cmds, n =>
      if n < MAX_RANKS then
        let t := trim l
        let cmds1 := Function.update cmds n t
        let r := if qualifies t then parseGo ls cmds1 (n + 1) else parseGo ls cmds1 n
        ⟨r.cmds, r.num, n :: r.invoked, n :: r.wrote⟩
      else
        ⟨Function.update cmds n l, n, [n], [n]⟩

/-- The coordinator's parse of a roster file, started on the
zero-initialised `commands` array with `num_commands = 0`. -/
def parse (lines : List (List Char)) : ParseResult :=
  parseGo lines (fun _ => []) 0

/-- The trimmed qualifying (valid) lines of a roster file, in file order. -/
def validList (lines : List (List Char)) : List (List Char) :=
  (lines.map trim).filter qualifies

/-- Number of valid (non-blank, non-comment) lines of a roster file. -/
def validCount (lines : List (List Char)) : Nat :=
  (validList lines).length

/-- Assignment a rank `r < size` ends up with in roster mode (lines 91-102):
rank 0 copies `commands[0]` when `num_commands > 0`, every other rank `r`
receives `commands[r]` verbatim via the matching `MPI_Send`/`MPI_Recv`. -/
def rosterAssignment (lines : List (List Char)) (r : Nat) : List Char :=
  let p := parse lines
  if r = 0 then (if 0 < p.num then p.cmds 0 else []) else p.cmds r

/-- Whether the coordinator prints the excess-commands warning
(line 94: `if (num_commands > size)`). -/
def rosterWarned (lines : List (List Char)) (size : Nat) : Bool :=
  decide (size < (parse lines).num)

/-- Targets of the coordinator's send loop (line 97): `for (i=1; i<size; i++)`. -/
def sendTargets (size : Nat) : List Nat := List.range' 1 (size - 1)

/-- Ranks that receive a roster entry at all: rank 0 keeps entry 0 locally,
the others are the send targets. -/
def dispatchedRanks (size : Nat) : List Nat := 0 :: sendTargets size

/-- Prefix of the invocation argument before the first `*` (from
`strchr(arg, '*')` and the `%.*s` conversion at line 54). -/
def beforeStar (arg : List Char) : List Char :=
  arg.takeWhile (fun c => c != '*')

/-- Suffix of the invocation argument after the first `*` (the `star+1`
argument of the `snprintf` at line 54). -/
def afterStar (arg : List Char) : List Char :=
  (arg.dropWhile (fun c => c != '*')).tail

/-- Pattern-mode path resolution (lines 50-54): when the argument contains
a `*`, `snprintf(scriptfile, sizeof(scriptfile), "%.*s%d%s", ...)` builds
prefix + decimal rank + suffix, truncated to the 4999 characters that fit
the `MAX_LINE` buffer; without a `*` the program is in roster mode. -/
def resolvePattern (arg : List Char) (rank : Nat) : Option (List Char) :=
  if '*' ∈ arg then
    some ((beforeStar arg ++ (Nat.repr rank).data ++ afterStar arg).take (MAX_LINE - 1))
  else none

/-- How a child process terminated: normal exit, killed by a signal
(with or without core dump), or `system` failing to launch it at all. -/
inductive ChildStatus where
  | exited (code : Nat)
  | signaled (sig : Nat) (core : Bool)
  | launchFail
deriving DecidableEq

/-- The `int` returned by `system` (POSIX wait status encoding): exit code
in bits 8-15, the terminating signal in bits 0-6 with the core-dump flag at
bit 7, and `-1` when the child could not be launched. -/
def systemRet : ChildStatus → Int
  | .exited c => ((c : Int) % 256) * 256
  | .signaled s core => ((s : Int) % 128) + (if core then 128 else 0)
  | .launchFail => -1

/-- glibc `WIFEXITED(status)`: `(status & 0x7f) == 0`. -/
def wifexited (r : Int) : Bool := r % 128 == 0

/-- glibc `WEXITSTATUS(status)`: `(status & 0xff00) >> 8`. -/
def wexitstatus (r : Int) : Int := (r / 256) % 256

/-- Lines 62-64 and 108-110: `exitcode = -1` unless `WIFEXITED(ret)`, in
which case `exitcode = WEXITSTATUS(ret)`. -/
def exitcodeOf (r : Int) : Int := if wifexited r then wexitstatus r else -1

/-- Outcome of one member: run to `MPI_Finalize` and exit 0, or call
`MPI_Abort(MPI_COMM_WORLD, code)`, which terminates the whole group with
the given reported code. -/
inductive Outcome where
  | exit0
  | abort (code : Int)
deriving DecidableEq

/-- The guard at line 104: `if (mycmd[0] != '\0')` — a member launches a
subprocess exactly when its assignment is non-empty. -/
def launches (cmd : List Char) : Bool := !cmd.isEmpty

/-- Execution of one member's assignment (lines 104-115 and 61-68): no
subprocess for an empty assignment; otherwise `system` runs it, and any
nonzero return triggers `MPI_Abort` with the classified exit code. -/
def runAssignment (cmd : List Char) (st : ChildStatus) : Outcome :=
  if launches cmd then
    if systemRet st ≠ 0 then Outcome.abort (exitcodeOf (systemRet st)) else Outcome.exit0
  else Outcome.exit0

/-- The command string built at line 60: `snprintf(mycmd, MAX_LINE, "bash %s",
scriptfile)`, truncated to the 4999 characters that fit the buffer. -/
def bashCmd (path : List Char) : List Char :=
  ((['b', 'a', 's', 'h', ' ']) ++ path).take (MAX_LINE - 1)

/-- Pattern-mode member behaviour after resolution (lines 56-72): if the
resolved path exists, run `bash <path>` and record that a subprocess was
launched; otherwise print the informational notice, launch nothing, and
fall through to `MPI_Finalize`/`return 0`. -/
def patternRun (path : List Char) (present : Bool) (st : ChildStatus) : Outcome × Bool :=
  if present then (runAssignment (bashCmd path) st, true) else (Outcome.exit0, false)

/-- Reported termination code of the whole group: 0 when every member
reaches `MPI_Finalize`, otherwise the code of an `MPI_Abort` call. -/
def groupExitCode : List Outcome → Int
  | [] => 0
  | Outcome.exit0 :: rest => groupExitCode rest
  | Outcome.abort c :: _ => c

/-- Result of the roster-mode coordinator: either a group-wide abort, or the
per-rank assignments it dispatches together with the warning flag. -/
inductive CoordResult where
  | aborted (code : Int)
  | dispatched (assigns : List (List Char)) (warned : Bool)
deriving DecidableEq

/-- Roster-mode coordinator (lines 76-99): `fopen` failure means
`MPI_Abort(MPI_COMM_WORLD, 1)`; otherwise the file is parsed and each rank
`r < size` is dispatched its assignment. -/
def rosterCoordinator (file : Option (List (List Char))) (size : Nat) : CoordResult :=
  match file with
  | none => CoordResult.aborted 1
  | some lines =>
      CoordResult.dispatched ((List.range size).map (rosterAssignment lines))
        (rosterWarned lines size)

/-- Roster file of scenario: a valid line followed by a final comment line. -/
def fileA : List (List Char) :=
  [['e', 'c', 'h', 'o', ' ', 'A', '\n'], ['#', 'c', '\n']]

/-- Roster file of scenario: a valid line followed by a final comment line
whose first non-whitespace character is `#`. -/
def fileB : List (List Char) :=
  [['e', 'c', 'h', 'o', ' ', 'h', 'i', '\n'],
   [' ', ' ', '#', ' ', 'n', 'o', 't', 'e', '\n']]

/-- Pattern argument used for the truncation counterexample: 4999 copies of
`a` followed by the wildcard. -/
def patC : List Char := List.replicate 4999 'a' ++ (['*'])

/-- The pattern of the spec's worked example, `wgrib_*.sh`. -/
def patW : List Char := ['w', 'g', 'r', 'i', 'b', '_', '*', '.', 's', 'h']

end RankRun

namespace RankRun

/-- Helper: the part a `dropWhile` keeps starts with an element refuting `p`. -/
lemma dropWhile_head_false {α : Type} (p : α → Bool) (l : List α) (h : α) (t : List α)
    (he : l.dropWhile p = h :: t) : p h = false := by
  induction l with
  | nil => simp at he
  | cons a l ih =>
      by_cases ha : p a
      · rw [List.dropWhile_cons_of_pos ha] at he
        exact ih he
      · rw [List.dropWhile_cons_of_neg ha] at he
        cases he
        simpa using ha

/-- Helper: `takeWhile p` of a `dropWhile p` residue is empty. -/
lemma takeWhile_dropWhile_nil {α : Type} (p : α → Bool) (l : List α) :
    (l.dropWhile p).takeWhile p = [] := by
  cases hd : l.dropWhile p with
  | nil => rfl
  | cons h t =>
      have := dropWhile_head_false p l h t hd
      simp [List.takeWhile_cons, this]

/-- Helper: a final element refuting `p` survives `dropWhile p`. -/
lemma dropWhile_append_singleton {α : Type} (p : α → Bool) (l : List α) (h : α)
    (hp : p h = false) : (l ++ [h]).dropWhile p = l.dropWhile p ++ [h] := by
  induction l with
  | nil => simp [List.dropWhile, hp]
  | cons a l ih =>
      by_cases ha : p a
      · simpa [List.dropWhile_cons_of_pos ha] using ih
      · simp [List.dropWhile_cons_of_neg ha]

/-- Helper: `takeWhile` passes over a replicated satisfying element. -/
lemma takeWhile_replicate_append {α : Type} (p : α → Bool) (a : α) (ha : p a = true) :
    ∀ (n : Nat) (l : List α),
      (List.replicate n a ++ l).takeWhile p = List.replicate n a ++ l.takeWhile p := by
  intro n
  induction n with
  | zero => intro l; simp
  | succ n ih =>
      intro l
      simp [List.replicate_succ, List.takeWhile_cons, ha, ih]

/-- Helper: `dropWhile` consumes a replicated satisfying element. -/
lemma dropWhile_replicate_append {α : Type} (p : α → Bool) (a : α) (ha : p a = true) :
    ∀ (n : Nat) (l : List α),
      (List.replicate n a ++ l).dropWhile p = l.dropWhile p := by
  intro n
  induction n with
  | zero => intro l; simp
  | succ n ih =>
      intro l
      simp [List.replicate_succ, List.dropWhile_cons, ha, ih]

/-- Helper: unfolding of `validList` on a cons cell. -/
lemma validList_cons (l : List Char) (ls : List (List Char)) :
    validList (l :: ls) =
      if qualifies (trim l) then trim l :: validList ls else validList ls := by
  simp [validList, List.filter_cons]

/-- Helper: the valid-line count of a cons cell. -/
lemma validCount_cons (l : List Char) (ls : List (List Char)) :
    validCount (l :: ls) =
      (if qualifies (trim l) then 1 else 0) + validCount ls := by
  by_cases hq : qualifies (trim l) <;>
    simp [validCount, validList_cons, hq, Nat.add_comm]

/-- Helper: the parse loop leaves rows below the starting index untouched. -/
lemma parseGo_cmds_lt (ls : List (List Char)) : ∀ (cmds : Nat → List Char) (n i : Nat),
    i < n → (parseGo ls cmds n).cmds i = cmds i := by
  induction ls with
  | nil => intro cmds n i _; rfl
  | cons l ls ih =>
      intro cmds n i hi
      by_cases hlt : n < MAX_RANKS
      · by_cases hq : qualifies (trim l)
        · simp only [parseGo, if_pos hlt, hq, if_true]
          rw [ih _ (n + 1) i (by omega), Function.update_noteq (by omega)]
        · simp only [parseGo, if_pos hlt, hq, Bool.false_eq_true, if_false]
          rw [ih _ n i hi, Function.update_noteq (by omega)]
      · simp only [parseGo, if_neg hlt]
        rw [Function.update_noteq (by omega)]

/-- Helper: the final `num_commands` is the number of valid lines, capped at
`MAX_RANKS` (the loop guard is `num_commands < MAX_RANKS`, not `size`). -/
lemma parseGo_num (ls : List (List Char)) : ∀ (cmds : Nat → List Char) (n : Nat),
    n ≤ MAX_RANKS →
    (parseGo ls cmds n).num = min (n + validCount ls) MAX_RANKS := by
  induction ls with
  | nil =>
      intro cmds n hn
      simp only [parseGo]
      simp [validCount, validList]
      omega
  | cons l ls ih =>
      intro cmds n hn
      by_cases hlt : n < MAX_RANKS
      · by_cases hq : qualifies (trim l)
        · simp only [parseGo, if_pos hlt, hq, if_true]
          rw [ih _ (n + 1) (by omega), validCount_cons, if_pos hq]
          omega
        · simp only [parseGo, if_pos hlt, hq, Bool.false_eq_true, if_false]
          rw [ih _ n hn, validCount_cons, if_neg hq]
          omega
      · simp only [parseGo, if_neg hlt]
        have : n = MAX_RANKS := by omega
        omega

/-- Helper: rows `n ≤ i < num_commands` hold the valid lines in file order. -/
lemma parseGo_cmds_stored (ls : List (List Char)) : ∀ (cmds : Nat → List Char) (n i : Nat),
    n ≤ i → i < (parseGo ls cmds n).num →
    (parseGo ls cmds n).cmds i = (validList ls).getD (i - n) [] := by
  induction ls with
  | nil =>
      intro cmds n i hni hnum
      simp only [parseGo] at hnum
      omega
  | cons l ls ih =>
      intro cmds n i hni hnum
      by_cases hlt : n < MAX_RANKS
      · by_cases hq : qualifies (trim l)
        · simp only [parseGo, if_pos hlt, hq, if_true] at hnum ⊢
          rcases Nat.eq_or_lt_of_le hni with heq | hlt2
          · subst heq
            rw [parseGo_cmds_lt ls _ (n + 1) n (by omega), Function.update_same]
            simp [validList_cons, hq]
          · rw [ih _ (n + 1) i (by omega) hnum]
            have hsub : i - n = (i - (n + 1)) + 1 := by omega
            simp [validList_cons, hq, hsub]
        · simp only [parseGo, if_pos hlt, hq, Bool.false_eq_true, if_false] at hnum ⊢
          rw [ih _ n i hni hnum]
          simp [validList_cons, hq]
      · simp only [parseGo, if_neg hlt] at hnum
        omega

/-- Helper: `num_commands` after parsing a whole file. -/
lemma parse_num (lines : List (List Char)) :
    (parse lines).num = min (validCount lines) MAX_RANKS := by
  have := parseGo_num lines (fun _ => []) 0 (by omega)
  simpa [parse] using this

/-- Helper: a rank below `num_commands` is assigned the valid line of its
own index. -/
lemma rosterAssignment_valid (lines : List (List Char)) (r : Nat)
    (h : r < (parse lines).num) :
    rosterAssignment lines r = (validList lines).getD r [] := by
  unfold rosterAssignment
  by_cases h0 : r = 0
  · subst h0
    rw [if_pos rfl, if_pos (by omega)]
    simpa [parse] using parseGo_cmds_stored lines (fun _ => []) 0 0 (Nat.le_refl 0) h
  · rw [if_neg h0]
    simpa [parse] using parseGo_cmds_stored lines (fun _ => []) 0 r (Nat.zero_le r) h

/-- Helper: a file of copies of the single qualifying line `a` has only
valid lines. -/
lemma validList_replicate_a (m : Nat) :
    validList (List.replicate m (['a'])) = List.replicate m (['a']) := by
  induction m with
  | zero => rfl
  | succ m ih =>
      rw [List.replicate_succ, validList_cons]
      have h1 : trim (['a']) = (['a']) := by decide
      have h2 : qualifies (trim (['a'])) = true := by decide
      rw [if_pos h2, h1, ih, ← List.replicate_succ]

/-- Helper: with more than `MAX_RANKS` qualifying lines, `fgets` writes into
row `MAX_RANKS` — in the C program an out-of-bounds store. -/
lemma parseGo_wrote_overflow (m : Nat) : ∀ (n : Nat) (cmds : Nat → List Char),
    n ≤ MAX_RANKS → MAX_RANKS < n + m →
    MAX_RANKS ∈ (parseGo (List.replicate m (['a'])) cmds n).wrote := by
  induction m with
  | zero => intro n cmds h1 h2; omega
  | succ m ih =>
      intro n cmds h1 h2
      rw [List.replicate_succ]
      by_cases hlt : n < MAX_RANKS
      · have hq : qualifies (trim (['a'])) = true := by decide
        simp only [parseGo, if_pos hlt, hq, if_true]
        exact List.mem_cons_of_mem _ (ih (n + 1) _ (by omega) (by omega))
      · have hn : n = MAX_RANKS := by omega
        subst hn
        simp [parseGo, hlt]

/-- Helper: a group in which every member reaches `MPI_Finalize` reports
termination code 0. -/
lemma groupExitCode_eq_zero (outs : List Outcome)
    (h : ∀ o ∈ outs, o = Outcome.exit0) : groupExitCode outs = 0 := by
  induction outs with
  | nil => rfl
  | cons o rest ih =>
      have ho := h o (by simp)
      subst ho
      rw [groupExitCode]
      exact ih (fun o hmem => h o (by simp [hmem]))

/-- Helper: a child that exits normally with code 0 never triggers an abort. -/
lemma runAssignment_exited_zero (cmd : List Char) :
    runAssignment cmd (ChildStatus.exited 0) = Outcome.exit0 := by
  simp [runAssignment, systemRet]

end RankRun

namespace RankRun

/-- C1 — failing-input evaluation.  The claim says every rank in
`[k, size)` receives an empty Assignment when the file has `k ≤ size`
valid lines.  For the file `echo A\n#c\n` (k = 1) and size 2, `fgets`
returns NULL at EOF leaving `commands[1]` untouched, so the trimmed
trailing comment `#c` stays in row 1 and is sent to rank 1, whose
assignment is therefore the non-empty string `#c`, not the empty string. -/
theorem claim1_trailing_comment_not_empty :
    validCount fileA = 1
    ∧ rosterAssignment fileA 1 = (['#', 'c'])
    ∧ rosterAssignment fileA 1 ≠ [] := by decide

/-- C2 — failing-input evaluation.  The claim says a line whose first
non-whitespace character is `#` never becomes any rank's Assignment and is
never executed, even as the last line of the file.  In the file
`echo hi\n  # note\n` the last line trims to `# note` (first character
`#`), remains in `commands[1]` when `fgets` hits EOF, becomes rank 1's
assignment, and since it is non-empty the member invokes `system` on it. -/
theorem claim2_trailing_comment_dispatched :
    trim ([' ', ' ', '#', ' ', 'n', 'o', 't', 'e', '\n']) = (['#', ' ', 'n', 'o', 't', 'e'])
    ∧ rosterAssignment fileB 1 = (['#', ' ', 'n', 'o', 't', 'e'])
    ∧ launches (rosterAssignment fileB 1) = true := by decide

/-- C3 — counterexample.  The claim says the parse stops after collecting
at most `size` qualifying lines and does not read or buffer qualifying
lines beyond position `size - 1`.  With size 1 and the two-line file
`a\nb\n` the loop (whose guard is `num_commands < MAX_RANKS`, independent
of `size`) collects both lines, buffers the second in `commands[1]`, and
invokes `fgets` three times. -/
theorem claim3_parse_ignores_size :
    (parse [['a'], ['b']]).num = 2
    ∧ ¬ (parse [['a'], ['b']]).num ≤ 1
    ∧ (parse [['a'], ['b']]).cmds 1 = (['b'])
    ∧ (parse [['a'], ['b']]).invoked = ([0, 1, 2]) := by decide

/-- C3 — amended.  The parse stops only at end of source or after
`MAX_RANKS` (5000) qualifying lines: `num_commands` is the number of valid
lines capped at `MAX_RANKS`.  Qualifying lines beyond position `size - 1`
may be read and buffered, but they are never dispatched: the only ranks
given an entry are rank 0 (which keeps entry 0) and the send targets
`1 .. size - 1`, so no rank at or beyond `size` receives anything. -/
theorem claim3_amended_stop_and_dispatch (lines : List (List Char)) (size r : Nat)
    (h1 : 0 < size) (h2 : size ≤ r) :
    (parse lines).num = min (validCount lines) MAX_RANKS
    ∧ r ∉ dispatchedRanks size := by
  refine ⟨parse_num lines, ?_⟩
  intro hmem
  simp [dispatchedRanks, sendTargets, List.mem_range'_1] at hmem
  omega

/-- C3 — witness for the amended theorem at a concrete input. -/
theorem claim3_amended_stop_and_dispatch_witness :
    0 < 1 ∧ 1 ≤ 3
    ∧ ((parse [['a'], ['b']]).num = min (validCount [['a'], ['b']]) MAX_RANKS
       ∧ 3 ∉ dispatchedRanks 1) :=
  ⟨by decide, by decide,
    claim3_amended_stop_and_dispatch [['a'], ['b']] 1 3 (by decide) (by decide)⟩

/-- C4 — counterexample at the stated boundary.  The claim says a warning
is produced for every file with `k > size` valid lines, including when
`size` equals the 5000-entry maximum.  A file of 5001 valid lines with
size 5000 produces no warning: the loop guard caps `num_commands` at
`MAX_RANKS = 5000`, so `num_commands > size` is `5000 > 5000`, false. -/
theorem claim4_no_warning_at_cap :
    5000 < validCount (List.replicate 5001 (['a']))
    ∧ rosterWarned (List.replicate 5001 (['a'])) 5000 = false := by
  have hv : validCount (List.replicate 5001 (['a'])) = 5001 := by
    simp only [validCount, validList_replicate_a, List.length_replicate]
  refine ⟨by omega, ?_⟩
  rw [rosterWarned, parse_num, hv]
  rfl

/-- C4 — amended.  For `size < MAX_RANKS` and a file with more than `size`
valid lines, the warning is produced; each dispatched rank `r < size` is
assigned valid line `r`; and no rank at or beyond `size` is dispatched to,
so valid lines at positions `size` and beyond are never executed by any
member.  (At `size = MAX_RANKS` the cap on `num_commands` silences the
warning, which is the counterexample above.) -/
theorem claim4_amended_warning_and_dispatch (lines : List (List Char)) (size r q : Nat)
    (h1 : size < MAX_RANKS) (h2 : size < validCount lines)
    (h3 : r < size) (h4 : size ≤ q) :
    rosterWarned lines size = true
    ∧ rosterAssignment lines r = (validList lines).getD r []
    ∧ q ∉ dispatchedRanks size := by
  have hnum : (parse lines).num = min (validCount lines) MAX_RANKS := parse_num lines
  refine ⟨?_, ?_, ?_⟩
  · rw [rosterWarned, hnum]
    simp
    omega
  · exact rosterAssignment_valid lines r (by rw [hnum]; omega)
  · intro hmem
    simp [dispatchedRanks, sendTargets, List.mem_range'_1] at hmem
    omega

/-- C4 — witness for the amended theorem at a concrete input. -/
theorem claim4_amended_warning_and_dispatch_witness :
    1 < MAX_RANKS ∧ 1 < validCount [['a'], ['b']] ∧ 0 < 1 ∧ 1 ≤ 5
    ∧ (rosterWarned [['a'], ['b']] 1 = true
       ∧ rosterAssignment [['a'], ['b']] 0 = (validList [['a'], ['b']]).getD 0 []
       ∧ 5 ∉ dispatchedRanks 1) :=
  ⟨by decide, by decide, by decide, by decide,
    claim4_amended_warning_and_dispatch [['a'], ['b']] 1 0 5 (by decide) (by decide)
      (by decide) (by decide)⟩

/-- C5 — confirmed.  A member whose child exits normally with nonzero code
`c` (an 8-bit exit code) calls `MPI_Abort` with reported code `c`; a child
terminated by a signal, or one `system` could not launch, leads to
`MPI_Abort` with the sentinel `-1`; and when every assigned task exits
with code 0, every member reaches `MPI_Finalize` and the group's reported
termination code is 0. -/
theorem claim5_failure_propagation (cmd : List Char) (c sgn : Nat) (core : Bool)
    (tasks : List (List Char × ChildStatus))
    (hcmd : launches cmd = true) (hc0 : 0 < c) (hc : c < 256) (hs : sgn % 128 ≠ 0)
    (hall : ∀ t ∈ tasks, t.2 = ChildStatus.exited 0) :
    runAssignment cmd (ChildStatus.exited c) = Outcome.abort ((c : Nat) : Int)
    ∧ runAssignment cmd (ChildStatus.signaled sgn core) = Outcome.abort (-1)
    ∧ runAssignment cmd ChildStatus.launchFail = Outcome.abort (-1)
    ∧ groupExitCode (tasks.map (fun t => runAssignment t.1 t.2)) = 0 := by
  refine ⟨?_, ?_, ?_, ?_⟩
  · have h1 : ((c : Int) % 256) * 256 ≠ 0 := by omega
    have h2 : (((c : Int) % 256) * 256) % 128 = 0 := by omega
    have h3 : ((((c : Int) % 256) * 256) / 256) % 256 = (c : Int) := by omega
    simp only [runAssignment, hcmd, if_true, systemRet, ne_eq, h1, not_false_iff,
      exitcodeOf, wifexited, h2, beq_self_eq_true, if_pos, wexitstatus, h3]
  · have h1 : ((sgn : Int) % 128) + (if core then 128 else 0) ≠ 0 := by
      cases core <;> simp <;> omega
    have h2 : (((sgn : Int) % 128) + (if core then 128 else 0)) % 128 ≠ 0 := by
      cases core <;> simp <;> omega
    simp only [runAssignment, hcmd, if_true, systemRet, ne_eq, h1, not_false_iff,
      if_pos, exitcodeOf, wifexited]
    rw [if_neg (by simpa using h2)]
  · simp only [runAssignment, hcmd, if_true, systemRet, exitcodeOf, wifexited]
    norm_num
  · refine groupExitCode_eq_zero _ ?_
    intro o ho
    rcases List.mem_map.mp ho with ⟨t, ht, rfl⟩
    rw [hall t ht]
    exact runAssignment_exited_zero t.1

/-- C5 — witness at concrete inputs: exit code 7 aborts with 7, signal 9
aborts with -1, launch failure aborts with -1, and an all-success group
reports 0. -/
theorem claim5_failure_propagation_witness :
    launches (['x']) = true ∧ 0 < 7 ∧ 7 < 256 ∧ 9 % 128 ≠ 0
    ∧ (∀ t ∈ ([((['x'] : List Char), ChildStatus.exited 0)]), t.2 = ChildStatus.exited 0)
    ∧ (runAssignment (['x']) (ChildStatus.exited 7) = Outcome.abort ((7 : Nat) : Int)
       ∧ runAssignment (['x']) (ChildStatus.signaled 9 false) = Outcome.abort (-1)
       ∧ runAssignment (['x']) ChildStatus.launchFail = Outcome.abort (-1)
       ∧ groupExitCode (([((['x'] : List Char), ChildStatus.exited 0)]).map
            (fun t => runAssignment t.1 t.2)) = 0) :=
  ⟨by decide, by decide, by decide, by decide, by decide,
    claim5_failure_propagation (['x']) 7 9 false _ (by decide) (by decide) (by decide)
      (by decide) (by decide)⟩

/-- C6 — counterexample.  The claim says the resolved path equals
prefix + decimal rank + suffix for every argument containing `*`, but the
`snprintf` target is the `MAX_LINE` buffer: for a pattern of 4999 `a`s
followed by `*`, the resolved path is truncated to 4999 characters and the
rank digit is lost. -/
theorem claim6_truncated_resolution :
    resolvePattern patC 0
      ≠ some (beforeStar patC ++ (Nat.repr 0).data ++ afterStar patC) := by
  have hstar : '*' ∈ patC := by
    unfold patC
    exact List.mem_append.mpr (Or.inr (by decide))
  have hpre : beforeStar patC = List.replicate 4999 'a' := by
    rw [patC, beforeStar, takeWhile_replicate_append _ _ (by decide)]
    have h0 : (['*'] : List Char).takeWhile (fun c => c != '*') = [] := by decide
    rw [h0, List.append_nil]
  have hpost : afterStar patC = [] := by
    rw [patC, afterStar, dropWhile_replicate_append _ _ (by decide)]
    decide
  have hrep : (Nat.repr 0).data = (['0']) := by decide
  rw [resolvePattern, if_pos hstar, hpre, hpost, hrep]
  intro hcontra
  have heq := Option.some.inj hcontra
  have hlen := congrArg List.length heq
  simp only [List.length_take, List.length_append, List.length_replicate,
    List.length_cons, List.length_nil, MAX_LINE] at hlen
  omega

/-- C6 — amended.  Whenever prefix + decimal rank + suffix fits the
`MAX_LINE` buffer (length at most 4999), the resolved path is exactly the
substring before the first `*`, the decimal rank, and the substring after
the first `*` (later `*` characters pass through in the suffix); longer
results are truncated to 4999 characters. -/
theorem claim6_amended_resolution (arg : List Char) (r : Nat)
    (hstar : '*' ∈ arg)
    (hlen : (beforeStar arg ++ (Nat.repr r).data ++ afterStar arg).length ≤ MAX_LINE - 1) :
    resolvePattern arg r = some (beforeStar arg ++ (Nat.repr r).data ++ afterStar arg) := by
  rw [resolvePattern, if_pos hstar, List.take_of_length_le hlen]

/-- C6 — witness: pattern `wgrib_*.sh` with rank 3 resolves to exactly
`wgrib_3.sh`. -/
theorem claim6_amended_resolution_witness :
    '*' ∈ patW
    ∧ (beforeStar patW ++ (Nat.repr 3).data ++ afterStar patW).length ≤ MAX_LINE - 1
    ∧ resolvePattern patW 3 = some (['w', 'g', 'r', 'i', 'b', '_', '3', '.', 's', 'h']) :=
  ⟨by decide, by decide,
    (claim6_amended_resolution patW 3 (by decide) (by decide)).trans (by decide)⟩

/-- C7 — confirmed.  When the resolved pattern path is absent on a member's
filesystem, that member launches no subprocess and reaches
`MPI_Finalize`/`return 0`; if every other member also succeeds, the group's
reported termination code is 0. -/
theorem claim7_missing_script_inert (path : List Char) (st : ChildStatus)
    (others : List Outcome) (h : ∀ o ∈ others, o = Outcome.exit0) :
    patternRun path false st = (Outcome.exit0, false)
    ∧ groupExitCode ((patternRun path false st).1 :: others) = 0 := by
  refine ⟨rfl, ?_⟩
  have h1 : (patternRun path false st).1 = Outcome.exit0 := rfl
  rw [h1, groupExitCode]
  exact groupExitCode_eq_zero others h

/-- C7 — witness at a concrete missing path with one succeeding peer. -/
theorem claim7_missing_script_inert_witness :
    (∀ o ∈ ([Outcome.exit0]), o = Outcome.exit0)
    ∧ (patternRun (['x']) false (ChildStatus.exited 0) = (Outcome.exit0, false)
       ∧ groupExitCode ((patternRun (['x']) false (ChildStatus.exited 0)).1
            :: ([Outcome.exit0])) = 0) :=
  ⟨by decide, claim7_missing_script_inert (['x']) (ChildStatus.exited 0) _ (by decide)⟩

/-- C8 — confirmed.  When the coordinator cannot open the roster source it
calls `MPI_Abort(MPI_COMM_WORLD, 1)`, a group-wide abort with reported
code 1, for every group size — so no non-coordinating member is left
blocked on its receive. -/
theorem claim8_unreadable_roster_aborts (size : Nat) :
    rosterCoordinator none size = CoordResult.aborted 1 := rfl

/-- C9 — confirmed.  `trim` removes exactly a leading all-whitespace run
and a trailing all-whitespace run (space, tab, CR, LF), keeping the
interior verbatim: `s = a ++ trim s ++ b` with `a` and `b` whitespace-only
and neither end of `trim s` whitespace (so the removed runs are maximal);
and the result is empty exactly when the line is whitespace-only. -/
theorem claim9_trim_exact (s : List Char) :
    (∃ a b, s = a ++ trim s ++ b ∧ a.all isWs = true ∧ b.all isWs = true)
    ∧ (trim s).takeWhile isWs = []
    ∧ ((trim s).reverse).takeWhile isWs = []
    ∧ (trim s = [] ↔ s.all isWs = true) := by
  refine ⟨?_, ?_, ?_, ?_⟩
  · refine ⟨s.takeWhile isWs, ((s.dropWhile isWs).reverse.takeWhile isWs).reverse, ?_, ?_, ?_⟩
    · have key : s.dropWhile isWs
          = trim s ++ ((s.dropWhile isWs).reverse.takeWhile isWs).reverse := by
        simp only [trim]
        rw [← List.reverse_append, List.takeWhile_append_dropWhile, List.reverse_reverse]
      conv_lhs => rw [← List.takeWhile_append_dropWhile (p := isWs) (l := s)]
      conv_lhs => rw [key]
      rw [← List.append_assoc]
    · rw [List.all_eq_true]
      intro x hx
      exact List.mem_takeWhile_imp hx
    · rw [List.all_eq_true]
      intro x hx
      exact List.mem_takeWhile_imp (List.mem_reverse.mp hx)
  · cases hd : s.dropWhile isWs with
    | nil =>
        have : trim s = [] := by simp [trim, hd]
        simp [this]
    | cons h t =>
        have hh : isWs h = false := dropWhile_head_false isWs s h t hd
        have htrim : trim s = h :: ((t.reverse.dropWhile isWs)).reverse := by
          rw [trim, hd, List.reverse_cons, dropWhile_append_singleton _ _ _ hh,
            List.reverse_append]
          rfl
        rw [htrim]
        simp [List.takeWhile_cons, hh]
  · rw [trim]
    simp only [List.reverse_reverse]
    exact takeWhile_dropWhile_nil isWs (s.dropWhile isWs).reverse
  · constructor
    · intro h
      rw [List.all_eq_true]
      intro x hx
      have hd : (s.dropWhile isWs).reverse.dropWhile isWs = [] := by
        have := congrArg List.reverse h
        simpa [trim] using this
      have hall := List.dropWhile_eq_nil_iff.mp hd
      cases hD : s.dropWhile isWs with
      | nil => exact List.dropWhile_eq_nil_iff.mp hD x hx
      | cons hh tt =>
          have hf : isWs hh = false := dropWhile_head_false isWs s hh tt hD
          have ht : isWs hh = true := hall hh (by simp [hD])
          rw [hf] at ht
          cases ht
    · intro h
      have hnil : s.dropWhile isWs = [] := by
        rw [List.dropWhile_eq_nil_iff]
        rw [List.all_eq_true] at h
        exact h
      simp [trim, hnil]

/-- C10 — failing-input evaluation.  The claim says `fgets` is never
invoked with destination row `MAX_RANKS`.  Because the loop condition
evaluates `fgets(commands[num_commands], ...)` before checking
`num_commands < MAX_RANKS`, a file of `MAX_RANKS + 1` qualifying lines
makes `fgets` write its 5001st chunk into row `MAX_RANKS = 5000` — one
past the last row of `commands[MAX_RANKS][MAX_LINE]`, an out-of-bounds
store in the C program. -/
theorem claim10_row_5000_written :
    MAX_RANKS ∈ (parse (List.replicate (MAX_RANKS + 1) (['a']))).wrote := by
  unfold parse
  exact parseGo_wrote_overflow (MAX_RANKS + 1) 0 (fun _ => []) (by omega) (by omega)

end RankRun
